import Mathlib

/-!
# Verification of the synchronous producer adapter (`sync_producer.go`)

A shallow embedding of the sarama `syncProducer`: a blocking adapter over an
asynchronous production engine.  Channels of capacity 1 (the "expectation"
slots) become `Option`-valued buffers; the process-wide `sync.Pool` of slots
becomes an explicit store of slots plus a free list of slot identifiers;
the asynchronous engine is an external collaborator whose verdict on a
message is an `EngineOutcome` parameter.  Blocking operations (sending on
a full capacity-1 channel, receiving from an empty one) are modelled as
`Option`-returning functions where `none` means the operation would block.
-/

namespace Sarama

/-- An opaque engine-reported cause of a produce failure (`pErr.Err` in the
source).  This layer never inspects it. -/
structure KError where
  code : Nat
deriving DecidableEq, Repr

/-- `ProducerMessage`: destination and payload, the partition/offset fields
written by the engine before acknowledgment, and the transient
`expectation` reference to the correlation slot (a slot identifier here,
a `chan *ProducerError` in the source), valid only while in flight. -/
structure ProducerMessage where
  topic : String
  key : String
  value : String
  partition : Int
  offset : Int
  expectation : Option Nat := none
deriving DecidableEq, Repr

/-- `ProducerError`: pairs the failed message with its cause, as emitted on
the engine's error stream.  Note: in Go, `Msg` is a pointer to the caller's
message object; here it is the message value at the time the error is
routed (with the transient `expectation` field cleared, since the caller
detaches the slot before it ever reads the returned error). -/
structure ProducerError where
  Msg : ProducerMessage
  Err : KError
deriving DecidableEq, Repr

/-- The value carried by an expectation slot: `none` is the success marker
(the success router sends a nil `*ProducerError`), `some pe` is a failure. -/
abbrev SlotVal := Option ProducerError

/-- The contents of one capacity-1 slot: `none` when the buffer is empty,
`some v` when one value is buffered. -/
abbrev Slot := Option SlotVal

/-- What the engine reports for a submitted message: success with the
engine-assigned partition and offset, or failure with a cause. -/
inductive EngineOutcome where
  | success (partition : Int) (offset : Int)
  | failure (err : KError)
deriving DecidableEq, Repr

/-- State threaded through the dispatch path: the store of every slot ever
created (indexed by identifier), the free list of identifiers currently in
the `expectationsPool`, and the log of messages pushed into the engine's
intake (`sp.producer.Input()`). -/
structure PoolState where
  store : List Slot
  free : List Nat
  intake : List ProducerMessage
deriving DecidableEq, Repr

/-- `expectationsPool.Get()`: reuse a pooled slot if one is free, otherwise
the pool's `New` allocates a fresh empty capacity-1 channel. -/
def expectationsPoolGet (st : PoolState) : Nat × PoolState :=
  match st.free with
  | [] => (st.store.length, { st with store := st.store ++ [none] })
  | id :: rest => (id, { st with free := rest })

/-- `expectationsPool.Put(expectation)`: return a slot to the pool. -/
def expectationsPoolPut (id : Nat) (st : PoolState) : PoolState :=
  { st with free := id :: st.free }

/-- Send on a capacity-1 channel: succeeds only if the buffer is empty
(`none` means the sender would block). -/
def chanSend (id : Nat) (v : SlotVal) (store : List Slot) : Option (List Slot) :=
  match store[id]? with
  | some none => some (store.set id (some v))
  | _ => none

/-- Receive from a capacity-1 channel: succeeds only if a value is buffered
(`none` means the receiver would block), and empties the buffer. -/
def chanRecv (id : Nat) (store : List Slot) : Option (SlotVal × List Slot) :=
  match store[id]? with
  | some (some v) => some (v, store.set id none)
  | _ => none

/-- The engine's processing of one accepted message: on success it assigns
the partition and offset onto the message and the success router deposits
the nil marker; on failure the error router deposits the error paired with
the originating message. -/
def engineProcess (outcome : EngineOutcome) (msg : ProducerMessage) :
    ProducerMessage × SlotVal :=
  match outcome with
  | .success p o => ({ msg with partition := p, offset := o }, none)
  | .failure e => (msg, some ⟨{ msg with expectation := none }, e⟩)

/-- `syncProducer.SendMessage`: acquire a slot, attach it to the message,
push the message into the engine's intake, block reading the slot for the
routed result, detach and release the slot, and return either the
engine-assigned partition/offset or the sentinel `(-1, -1)` with the
reported cause.  Overall `none` means some channel operation would block,
which cannot happen when the pool invariant holds. -/
def SendMessage (outcome : EngineOutcome) (msg : ProducerMessage)
    (st : PoolState) : Option ((Int × Int × Option KError) × PoolState) :=
  let (id, st1) := expectationsPoolGet st
  let msg1 := { msg with expectation := some id }
  let st2 := { st1 with intake := st1.intake ++ [msg1] }
  let (msg2, dval) := engineProcess outcome msg1
  match chanSend id dval st2.store with
  | none => none
  | some store3 =>
    match chanRecv id store3 with
    | none => none
    | some (pErr, store4) =>
      let st4 := expectationsPoolPut id { st2 with store := store4 }
      match pErr with
      | some pe => some ((-1, -1, some pe.Err), st4)
      | none => some ((msg2.partition, msg2.offset, none), st4)

/-- The value a router deposits for one batch member: the success router
deposits the nil marker, the error router deposits the produce error
pairing the originating message with its cause. -/
def depositOf (msg : ProducerMessage) (outcome : EngineOutcome) : SlotVal :=
  match outcome with
  | .success _ _ => none
  | .failure e => some ⟨{ msg with expectation := none }, e⟩

/-- One iteration of the submission goroutine in `SendMessages`: acquire a
slot, attach it, push the message into intake; the engine then processes
it and the matching router deposits the result into the attached slot. -/
def submitOne (msg : ProducerMessage) (outcome : EngineOutcome)
    (st : PoolState) : Option (Nat × PoolState) :=
  let (id, st1) := expectationsPoolGet st
  let msg1 := { msg with expectation := some id }
  let st2 := { st1 with intake := st1.intake ++ [msg1] }
  let (_, dval) := engineProcess outcome msg1
  (chanSend id dval st2.store).map fun store3 => (id, { st2 with store := store3 })

/-- The submission goroutine of `SendMessages`: submit every batch member
in order, recording the submission order of slot identifiers (the `indices`
channel of the source carries batch positions; here the identifier list is
kept in submission order, which is the same information). -/
def submitAll (pairs : List (ProducerMessage × EngineOutcome))
    (st : PoolState) : Option (List Nat × PoolState) :=
  match pairs with
  | [] => some ([], st)
  | (m, oc) :: rest =>
    match submitOne m oc st with
    | none => none
    | some (id, st1) =>
      (submitAll rest st1).map fun p => (id :: p.1, p.2)

/-- The draining loop of `SendMessages`: for each batch member in
submission order, block reading its slot, detach and release the slot,
and append the produce error to the aggregate when the member failed. -/
def awaitAll (ids : List Nat) (st : PoolState) (errs : List ProducerError) :
    Option (List ProducerError × PoolState) :=
  match ids with
  | [] => some (errs, st)
  | id :: rest =>
    match chanRecv id st.store with
    | none => none
    | some (pErr, store1) =>
      let st1 := expectationsPoolPut id { st with store := store1 }
      match pErr with
      | some pe => awaitAll rest st1 (errs ++ [pe])
      | none => awaitAll rest st1 errs

/-- `syncProducer.SendMessages`: run the submission goroutine over the
batch, then await every member's slot in submission order, collecting the
per-message produce errors; return the aggregate when it is non-empty and
nil (`none`) otherwise.  The i-th outcome is the engine's verdict on the
i-th message. -/
def SendMessages (outcomes : List EngineOutcome)
    (msgs : List ProducerMessage) (st : PoolState) :
    Option (Option (List ProducerError) × PoolState) :=
  match submitAll (msgs.zip outcomes) st with
  | none => none
  | some (ids, st1) =>
    (awaitAll ids st1 []).map fun p =>
      (if p.1.isEmpty then none else some p.1, p.2)

/-- The produce errors of exactly the failed members of a batch, in batch
order: the reference point for the aggregate error of `SendMessages`. -/
def failedOf (pairs : List (ProducerMessage × EngineOutcome)) :
    List ProducerError :=
  pairs.filterMap fun p => depositOf p.1 p.2

/-- Whether the engine reports this outcome as a failure. -/
def EngineOutcome.isFailure : EngineOutcome → Bool
  | .failure _ => true
  | .success _ _ => false

/-- The pool invariant: every identifier in the free list names a slot in
the store, no identifier is pooled twice, and every pooled slot is empty. -/
def PoolInv (st : PoolState) : Prop :=
  st.free.Nodup ∧ ∀ id ∈ st.free, st.store[id]? = some none

instance (st : PoolState) : Decidable (PoolInv st) := by
  unfold PoolInv; infer_instance

lemma chanSend_of_empty {store : List Slot} {id : Nat} (v : SlotVal)
    (h : store[id]? = some none) :
    chanSend id v store = some (store.set id (some v)) := by
  simp [chanSend, h]

lemma chanRecv_of_full {store : List Slot} {id : Nat} {v : SlotVal}
    (h : store[id]? = some (some v)) :
    chanRecv id store = some (v, store.set id none) := by
  simp [chanRecv, h]

lemma getElem?_lt {store : List Slot} {id : Nat} {s : Slot}
    (h : store[id]? = some s) : id < store.length :=
  (List.getElem?_eq_some_iff.mp h).1

/-- Full evaluation of `SendMessage` under the pool invariant: no channel
operation blocks, the returned triple is determined by the engine outcome,
and the slot round-trip preserves the pool invariant without leaking. -/
lemma SendMessage_eval (outcome : EngineOutcome) (msg : ProducerMessage)
    (st : PoolState) (h : PoolInv st) :
    ∃ st', SendMessage outcome msg st =
        some ((match outcome with
               | .success p o => (p, o, none)
               | .failure e => (-1, -1, some e)), st') ∧
      PoolInv st' ∧ st'.free.length = max st.free.length 1 := by
  obtain ⟨hnd, hempty⟩ := h
  cases hf : st.free with
  | nil =>
    have hget : (st.store ++ [(none : Slot)])[st.store.length]? = some none :=
      List.getElem?_concat_length st.store none
    have hlt : st.store.length < (st.store ++ [(none : Slot)]).length :=
      getElem?_lt hget
    refine ⟨⟨((st.store ++ [none]).set st.store.length
        (some (engineProcess outcome { msg with expectation := some st.store.length }).2)).set
          st.store.length none,
      st.store.length :: st.free,
      st.intake ++ [{ msg with expectation := some st.store.length }]⟩, ?_, ?_, ?_⟩
    · cases outcome <;>
        simp [SendMessage, expectationsPoolGet, hf, chanSend, chanRecv,
          engineProcess, expectationsPoolPut, hget, hlt, List.getElem?_set_self hlt]
    · constructor
      · simp [hf]
      · intro id hid
        simp only [hf] at hid
        simp at hid
        subst hid
        exact List.getElem?_set_self (by simp)
    · simp [hf]
  | cons id rest =>
    have hget : st.store[id]? = some none := hempty id (by rw [hf]; exact .head rest)
    have hlt : id < st.store.length := getElem?_lt hget
    have hndr : id ∉ rest ∧ rest.Nodup := by
      rw [hf] at hnd; exact List.nodup_cons.mp hnd
    refine ⟨⟨(st.store.set id
        (some (engineProcess outcome { msg with expectation := some id }).2)).set id none,
      id :: rest,
      st.intake ++ [{ msg with expectation := some id }]⟩, ?_, ?_, ?_⟩
    · cases outcome <;>
        simp [SendMessage, expectationsPoolGet, hf, chanSend, chanRecv,
          engineProcess, expectationsPoolPut, hget, hlt,
          List.getElem?_set_self (l := st.store) (i := id) hlt]
    · constructor
      · rw [hf] at hnd; exact hnd
      · intro j hj
        rcases List.mem_cons.mp hj with hj | hj
        · subst hj
          exact List.getElem?_set_self (by simpa using hlt)
        · have hne : id ≠ j := fun hh => hndr.1 (hh ▸ hj)
          rw [List.getElem?_set_ne hne, List.getElem?_set_ne hne]
          exact hempty j (by rw [hf]; exact .tail _ hj)
    · simp [hf]

lemma engineProcess_snd (oc : EngineOutcome) (m : ProducerMessage) (id : Nat) :
    (engineProcess oc { m with expectation := some id }).2 = depositOf m oc := by
  cases oc <;> rfl

/-- Evaluation of one submission step under the pool invariant: the slot
acquisition and the router's deposit never block, the acquired slot leaves
the free list, its buffer holds the member's routed result, and the
remaining pool keeps the invariant. -/
lemma submitOne_spec (m : ProducerMessage) (oc : EngineOutcome)
    (st : PoolState) (h : PoolInv st) :
    ∃ id stA, submitOne m oc st = some (id, stA) ∧
      PoolInv stA ∧
      id ∉ stA.free ∧ id < stA.store.length ∧
      stA.store[id]? = some (some (depositOf m oc)) ∧
      stA.free ⊆ st.free ∧
      stA.free.length = st.free.length - 1 ∧
      st.store.length ≤ stA.store.length ∧
      (∀ j, j ≠ id → j < st.store.length → stA.store[j]? = st.store[j]?) ∧
      (id ∈ st.free ∨ st.store.length ≤ id) := by
  obtain ⟨hnd, hempty⟩ := h
  cases hf : st.free with
  | nil =>
    have hget : (st.store ++ [(none : Slot)])[st.store.length]? = some none :=
      List.getElem?_concat_length st.store none
    have hlt : st.store.length < (st.store ++ [(none : Slot)]).length :=
      getElem?_lt hget
    refine ⟨st.store.length,
      ⟨(st.store ++ [none]).set st.store.length (some (depositOf m oc)),
        [], st.intake ++ [{ m with expectation := some st.store.length }]⟩,
      ?_, ?_, ?_, ?_, ?_, ?_, ?_, ?_, ?_, ?_⟩
    · simp [submitOne, expectationsPoolGet, hf, chanSend, hget,
        engineProcess_snd]
    · exact ⟨List.nodup_nil, fun j hj => absurd hj (List.not_mem_nil j)⟩
    · exact List.not_mem_nil _
    · simp
    · exact List.getElem?_set_self hlt
    · exact List.nil_subset _
    · simp
    · simp
    · intro j hj hjlt
      rw [List.getElem?_set_ne (fun hh => hj hh.symm),
        List.getElem?_append_left hjlt]
    · right; exact Nat.le_refl _
  | cons id rest =>
    have hget : st.store[id]? = some none := hempty id (by rw [hf]; exact .head rest)
    have hlt : id < st.store.length := getElem?_lt hget
    have hndr : id ∉ rest ∧ rest.Nodup := by
      rw [hf] at hnd; exact List.nodup_cons.mp hnd
    refine ⟨id,
      ⟨st.store.set id (some (depositOf m oc)), rest,
        st.intake ++ [{ m with expectation := some id }]⟩,
      ?_, ?_, ?_, ?_, ?_, ?_, ?_, ?_, ?_, ?_⟩
    · simp [submitOne, expectationsPoolGet, hf, chanSend, hget,
        engineProcess_snd]
    · refine ⟨hndr.2, fun j hj => ?_⟩
      have hne : id ≠ j := fun hh => hndr.1 (hh ▸ hj)
      rw [List.getElem?_set_ne hne]
      exact hempty j (by rw [hf]; exact .tail _ hj)
    · exact hndr.1
    · simpa using hlt
    · exact List.getElem?_set_self hlt
    · exact fun j hj => .tail _ hj
    · simp
    · simp
    · intro j hj hjlt
      exact List.getElem?_set_ne (fun hh => hj hh.symm)
    · left; exact .head rest

/-- Evaluation of the full submission goroutine under the pool invariant:
it acquires pairwise-distinct slots, deposits each member's routed result
into its own slot in submission order, keeps the pool invariant on the
remaining free list, and touches no other slot. -/
lemma submitAll_spec (pairs : List (ProducerMessage × EngineOutcome)) :
    ∀ st : PoolState, PoolInv st →
      ∃ ids st1, submitAll pairs st = some (ids, st1) ∧
        ids.Nodup ∧
        (∀ i ∈ ids, i ∉ st1.free ∧ i < st1.store.length) ∧
        (∀ j, j ∉ st.free → j < st.store.length → j ∉ ids) ∧
        PoolInv st1 ∧
        List.Forall₂ (fun id v => st1.store[id]? = some (some v)) ids
          (pairs.map fun p => depositOf p.1 p.2) ∧
        st1.free.length = st.free.length - pairs.length ∧
        st1.free ⊆ st.free ∧
        st.store.length ≤ st1.store.length ∧
        (∀ j, j ∉ ids → j < st.store.length → st1.store[j]? = st.store[j]?) := by
  induction pairs with
  | nil =>
    intro st h
    exact ⟨[], st, rfl, List.nodup_nil, by simp, by simp, h,
      List.Forall₂.nil, by simp, List.Subset.refl _, Nat.le_refl _,
      fun j _ _ => rfl⟩
  | cons p rest ih =>
    intro st h
    obtain ⟨m, oc⟩ := p
    obtain ⟨id, stA, heval, hInvA, hidFree, hidLt, hidStore, hsubA, hlenA,
      hstoreLeA, hpresA, hidOrig⟩ := submitOne_spec m oc st h
    obtain ⟨ids, st1, heval1, hnd1, hmem1, hnotin1, hInv1, hfa1, hlen1,
      hsub1, hstoreLe1, hpres1⟩ := ih stA hInvA
    have hidNotIn : id ∉ ids := hnotin1 id hidFree hidLt
    refine ⟨id :: ids, st1, ?_, ?_, ?_, ?_, hInv1, ?_, ?_, ?_, ?_, ?_⟩
    · simp [submitAll, heval, heval1]
    · exact List.nodup_cons.mpr ⟨hidNotIn, hnd1⟩
    · intro i hi
      rcases List.mem_cons.mp hi with hi | hi
      · subst hi
        exact ⟨fun hc => hidFree (hsub1 hc), Nat.lt_of_lt_of_le hidLt hstoreLe1⟩
      · exact hmem1 i hi
    · intro j hjfree hjlt hjmem
      rcases List.mem_cons.mp hjmem with hj | hj
      · subst hj
        rcases hidOrig with hc | hc
        · exact hjfree hc
        · omega
      · exact hnotin1 j (fun hc => hjfree (hsubA hc))
          (Nat.lt_of_lt_of_le hjlt hstoreLeA) hj
    · simp only [List.map_cons]
      refine List.Forall₂.cons ?_ hfa1
      rw [hpres1 id hidNotIn hidLt]
      exact hidStore
    · rw [hlen1, hlenA]
      simp only [List.length_cons]
      omega
    · exact fun j hj => hsubA (hsub1 hj)
    · exact Nat.le_trans hstoreLeA hstoreLe1
    · intro j hj hjlt
      have hjid : j ≠ id := fun hh => hj (hh ▸ List.mem_cons_self _ _)
      have hjids : j ∉ ids := fun hh => hj (List.mem_cons_of_mem _ hh)
      rw [hpres1 j hjids (Nat.lt_of_lt_of_le hjlt hstoreLeA), hpresA j hjid hjlt]

lemma forall₂_store_set_ne {store : List Slot} {i0 : Nat} {x : Slot}
    {ids : List Nat} {vals : List SlotVal}
    (h : List.Forall₂ (fun id v => store[id]? = some (some v)) ids vals)
    (hne : i0 ∉ ids) :
    List.Forall₂ (fun id v => (store.set i0 x)[id]? = some (some v)) ids vals := by
  induction h with
  | nil => exact .nil
  | @cons a b l1 l2 hr hfa ih =>
    refine List.Forall₂.cons ?_ (ih fun hh => hne (.tail _ hh))
    rw [List.getElem?_set_ne fun hh => hne (by rw [hh]; exact .head _)]
    exact hr

/-- Evaluation of the draining loop: when every awaited slot already holds
its routed deposit, awaiting in submission order never blocks, collects
exactly the failure values in order, returns every slot to the pool empty
and the pool invariant holds afterwards. -/
lemma awaitAll_spec (ids : List Nat) :
    ∀ (vals : List SlotVal) (st : PoolState) (acc : List ProducerError),
      ids.Nodup →
      (∀ i ∈ ids, i ∉ st.free) →
      PoolInv st →
      List.Forall₂ (fun id v => st.store[id]? = some (some v)) ids vals →
      ∃ st2, awaitAll ids st acc =
          some (acc ++ vals.filterMap (fun v => v), st2) ∧
        PoolInv st2 ∧
        st2.free.length = ids.length + st.free.length ∧
        st2.store.length = st.store.length ∧
        st2.intake = st.intake := by
  induction ids with
  | nil =>
    intro vals st acc _ _ h hfa
    cases hfa
    exact ⟨st, by simp [awaitAll], h, by simp, rfl, rfl⟩
  | cons id rest ih =>
    intro vals st acc hnd hnf h hfa
    obtain ⟨hndh, hndr⟩ := List.nodup_cons.mp hnd
    cases hfa with
    | cons hbuf hfar =>
      rename_i v vrest
      have hlt : id < st.store.length := getElem?_lt hbuf
      have hidnf : id ∉ st.free := hnf id (.head _)
      have hInv1 : PoolInv ⟨st.store.set id none, id :: st.free, st.intake⟩ := by
        refine ⟨List.nodup_cons.mpr ⟨hidnf, h.1⟩, fun j hj => ?_⟩
        rcases List.mem_cons.mp hj with hj | hj
        · subst hj
          exact List.getElem?_set_self hlt
        · rw [List.getElem?_set_ne fun hh => hidnf (by rw [hh]; exact hj)]
          exact h.2 j hj
      have hnf1 : ∀ i ∈ rest, i ∉ (⟨st.store.set id none, id :: st.free,
          st.intake⟩ : PoolState).free := by
        intro i hi hmem
        rcases List.mem_cons.mp hmem with hh | hh
        · exact hndh (hh ▸ hi)
        · exact hnf i (.tail _ hi) hh
      have hfa1 := forall₂_store_set_ne (x := none) hfar hndh
      cases v with
      | some pe =>
        obtain ⟨st2, heq, hInv2, hlen2, hstore2, hintake2⟩ :=
          ih vrest ⟨st.store.set id none, id :: st.free, st.intake⟩
            (acc ++ [pe]) hndr hnf1 hInv1 hfa1
        refine ⟨st2, ?_, hInv2, ?_, by simpa using hstore2, hintake2⟩
        · simp only [awaitAll, chanRecv_of_full hbuf, expectationsPoolPut]
          rw [heq]
          simp
        · simp only [List.length_cons] at hlen2 ⊢
          omega
      | none =>
        obtain ⟨st2, heq, hInv2, hlen2, hstore2, hintake2⟩ :=
          ih vrest ⟨st.store.set id none, id :: st.free, st.intake⟩
            acc hndr hnf1 hInv1 hfa1
        refine ⟨st2, ?_, hInv2, ?_, by simpa using hstore2, hintake2⟩
        · simp only [awaitAll, chanRecv_of_full hbuf, expectationsPoolPut]
          rw [heq]
          simp
        · simp only [List.length_cons] at hlen2 ⊢
          omega

/-- Full evaluation of `SendMessages` under the pool invariant: nothing
blocks, the returned aggregate is the (possibly empty) list of exactly the
failed members' produce errors in batch order, and the slot round-trips
preserve the pool invariant without leaking. -/
lemma SendMessages_eval (outcomes : List EngineOutcome)
    (msgs : List ProducerMessage) (st : PoolState) (h : PoolInv st)
    (hlen : msgs.length = outcomes.length) :
    ∃ st', SendMessages outcomes msgs st =
        some ((if (failedOf (msgs.zip outcomes)).isEmpty then none
               else some (failedOf (msgs.zip outcomes))), st') ∧
      PoolInv st' ∧ st'.free.length = max st.free.length msgs.length := by
  obtain ⟨ids, st1, heval, hnd, hmem, -, hInv1, hfa, hlen1, -, -, -⟩ :=
    submitAll_spec (msgs.zip outcomes) st h
  obtain ⟨st2, heq2, hInv2, hlen2, -, -⟩ :=
    awaitAll_spec ids ((msgs.zip outcomes).map fun p => depositOf p.1 p.2)
      st1 [] hnd (fun i hi => (hmem i hi).1) hInv1 hfa
  have hids : ids.length = (msgs.zip outcomes).length := by
    have := hfa.length_eq
    simpa using this
  have hzip : (msgs.zip outcomes).length = msgs.length := by
    simp [List.length_zip, hlen]
  have hfm : (((msgs.zip outcomes).map fun p => depositOf p.1 p.2).filterMap
      (fun v => v)) = failedOf (msgs.zip outcomes) := by
    rw [List.filterMap_map]
    rfl
  refine ⟨st2, ?_, hInv2, ?_⟩
  · simp only [SendMessages, heval]
    rw [heq2]
    simp [hfm]
  · rw [hlen2, hids, hzip, hlen1, hzip]
    omega

lemma failedOf_length :
    ∀ (msgs : List ProducerMessage) (outcomes : List EngineOutcome),
      msgs.length = outcomes.length →
      (failedOf (msgs.zip outcomes)).length =
        outcomes.countP EngineOutcome.isFailure := by
  intro msgs
  induction msgs with
  | nil =>
    intro outcomes h
    cases outcomes with
    | nil => rfl
    | cons oc ocs => simp at h
  | cons m ms ih =>
    intro outcomes h
    cases outcomes with
    | nil => simp at h
    | cons oc ocs =>
      have hih := ih ocs (by simpa using h)
      cases oc with
      | success p o =>
        simpa [failedOf, depositOf, EngineOutcome.isFailure,
          List.countP_cons] using hih
      | failure e =>
        simpa [failedOf, depositOf, EngineOutcome.isFailure,
          List.countP_cons] using hih

/-- Pool preservation across one dispatch operation that round-trips `n`
slots: the operation did not block, the pool invariant holds afterwards,
and the pool holds `max` of its old size and `n` slots (every acquired
slot was released: none leaked). -/
def PoolPreserved {α : Type} (before : PoolState) (n : Nat) :
    Option (α × PoolState) → Prop
  | none => False
  | some (_, st') => PoolInv st' ∧ st'.free.length = max before.free.length n

/-- Example message used to instantiate hypotheses of the claim theorems. -/
def msgA : ProducerMessage :=
  { topic := "t", key := "k", value := "v", partition := 0, offset := 0 }

/-- Example pool state (fresh producer, nothing pooled yet). -/
def emptyPool : PoolState := { store := [], free := [], intake := [] }

/-- Second example message. -/
def msgB : ProducerMessage :=
  { topic := "u", key := "k", value := "w", partition := 0, offset := 0 }

/-- Third example message. -/
def msgC : ProducerMessage :=
  { topic := "s", key := "k", value := "x", partition := 0, offset := 0 }

/-- Example batch, mirroring the spec's scenario: A succeeds, B fails,
C succeeds. -/
def batch3 : List ProducerMessage := [msgA, msgB, msgC]

/-- Engine verdicts for `batch3`: only the middle member fails. -/
def outcomes3 : List EngineOutcome :=
  [.success 0 1, .failure ⟨13⟩, .success 0 2]

/-- Claim C1: for every message that the engine reports as succeeded,
`SendMessage` returns the message's engine-assigned partition and offset
and a nil error. -/
theorem SendMessage_success_returns_assigned (p o : Int)
    (msg : ProducerMessage) (st : PoolState) (h : PoolInv st) :
    (SendMessage (.success p o) msg st).map Prod.fst = some (p, o, none) := by
  obtain ⟨st', heq, -, -⟩ := SendMessage_eval (.success p o) msg st h
  rw [heq]; rfl

/-- Witness for C1 at a concrete input: the pool invariant holds for the
fresh pool and the succeeded send returns partition 2, offset 5, nil. -/
theorem SendMessage_success_returns_assigned_witness :
    PoolInv emptyPool ∧
      (SendMessage (.success 2 5) msgA emptyPool).map Prod.fst =
        some (2, 5, none) :=
  ⟨by decide, SendMessage_success_returns_assigned 2 5 msgA emptyPool (by decide)⟩

/-- Claim C2: for every message that the engine reports as failed,
`SendMessage` returns the sentinel partition/offset `(-1, -1)` and the
engine-reported cause, surfaced verbatim. -/
theorem SendMessage_failure_returns_sentinel (e : KError)
    (msg : ProducerMessage) (st : PoolState) (h : PoolInv st) :
    (SendMessage (.failure e) msg st).map Prod.fst = some (-1, -1, some e) := by
  obtain ⟨st', heq, -, -⟩ := SendMessage_eval (.failure e) msg st h
  rw [heq]; rfl

/-- Witness for C2 at a concrete input: the failed send returns the
sentinel pair and exactly the reported cause. -/
theorem SendMessage_failure_returns_sentinel_witness :
    PoolInv emptyPool ∧
      (SendMessage (.failure ⟨7⟩) msgA emptyPool).map Prod.fst =
        some (-1, -1, some ⟨7⟩) :=
  ⟨by decide, SendMessage_failure_returns_sentinel ⟨7⟩ msgA emptyPool (by decide)⟩

/-- Claim C3: for a batch of N messages of which the engine fails exactly
K, `SendMessages` returns nil when K = 0, and otherwise an aggregate that
is the ordered list of exactly the K failed members' produce errors (one
per failed member, none for any succeeded member). -/
theorem SendMessages_aggregate_exactly_failed (outcomes : List EngineOutcome)
    (msgs : List ProducerMessage) (st : PoolState) (h : PoolInv st)
    (hlen : msgs.length = outcomes.length) :
    (SendMessages outcomes msgs st).map Prod.fst =
      some (if (failedOf (msgs.zip outcomes)).isEmpty then none
            else some (failedOf (msgs.zip outcomes))) ∧
    (failedOf (msgs.zip outcomes)).length =
      outcomes.countP EngineOutcome.isFailure := by
  obtain ⟨st', heq, -, -⟩ := SendMessages_eval outcomes msgs st h hlen
  exact ⟨by rw [heq]; rfl, failedOf_length msgs outcomes hlen⟩

/-- Witness for C3 at the spec's scenario (A succeeds, B fails,
C succeeds): the aggregate contains only B's produce error. -/
theorem SendMessages_aggregate_exactly_failed_witness :
    PoolInv emptyPool ∧ batch3.length = outcomes3.length ∧
      ((SendMessages outcomes3 batch3 emptyPool).map Prod.fst =
        some (if (failedOf (batch3.zip outcomes3)).isEmpty then none
              else some (failedOf (batch3.zip outcomes3))) ∧
       (failedOf (batch3.zip outcomes3)).length =
         outcomes3.countP EngineOutcome.isFailure) :=
  ⟨by decide, by decide,
    SendMessages_aggregate_exactly_failed outcomes3 batch3 emptyPool
      (by decide) (by decide)⟩

/-- Claim C5: every acquire/attach/resolve/release cycle performed by
`SendMessage` and `SendMessages` drains the slot and releases it: the
operations never block, the pool afterwards holds only empty slots
(`PoolInv`), and no slot leaks (the pool size is exactly the maximum of
its old size and the number of slots the call round-tripped). -/
theorem slot_pool_roundtrip (outcome : EngineOutcome) (msg : ProducerMessage)
    (outcomes : List EngineOutcome) (msgs : List ProducerMessage)
    (st : PoolState) (h : PoolInv st) (hlen : msgs.length = outcomes.length) :
    PoolPreserved st 1 (SendMessage outcome msg st) ∧
    PoolPreserved st msgs.length (SendMessages outcomes msgs st) := by
  constructor
  · obtain ⟨st', heq, hInv, hl⟩ := SendMessage_eval outcome msg st h
    rw [heq]
    exact ⟨hInv, hl⟩
  · obtain ⟨st', heq, hInv, hl⟩ := SendMessages_eval outcomes msgs st h hlen
    rw [heq]
    exact ⟨hInv, hl⟩

/-- Witness for C5 at concrete inputs: a single failed send and the
three-message batch both round-trip their slots through the pool. -/
theorem slot_pool_roundtrip_witness :
    PoolInv emptyPool ∧ batch3.length = outcomes3.length ∧
      (PoolPreserved emptyPool 1 (SendMessage (.failure ⟨7⟩) msgA emptyPool) ∧
       PoolPreserved emptyPool batch3.length
         (SendMessages outcomes3 batch3 emptyPool)) :=
  ⟨by decide, by decide,
    slot_pool_roundtrip (.failure ⟨7⟩) msgA outcomes3 batch3 emptyPool
      (by decide) (by decide)⟩

/-- Claim C9: `SendMessages` on an empty batch returns nil and leaves the
state untouched: no slot is acquired, nothing is pushed into the engine's
intake. -/
theorem SendMessages_empty_batch (st : PoolState) :
    SendMessages [] [] st = some (none, st) := rfl

/-- The `Producer.Return` flags of the engine configuration. -/
structure ReturnConfig where
  Successes : Bool
  Errors : Bool
deriving DecidableEq, Repr

/-- The `Producer` section of the engine configuration. -/
structure ProducerConfig where
  Return : ReturnConfig
deriving DecidableEq, Repr

/-- The engine configuration (only the fields this layer inspects). -/
structure Config where
  Producer : ProducerConfig
deriving DecidableEq, Repr

/-- The two configuration errors `verifyProducerConfig` can emit. -/
inductive ConfigurationError where
  | returnErrorsMustBeTrue
  | returnSuccessesMustBeTrue
deriving DecidableEq, Repr

/-- `verifyProducerConfig`: the construction precondition; both
`Producer.Return.Errors` and `Producer.Return.Successes` must be true,
checked in that order. -/
def verifyProducerConfig (config : Config) : Option ConfigurationError :=
  if !config.Producer.Return.Errors then
    some .returnErrorsMustBeTrue
  else if !config.Producer.Return.Successes then
    some .returnSuccessesMustBeTrue
  else
    none

/-- Modelled from the spec: `NewConfig` lives in `config.go`, which is not
among the sources; per the engine's documented defaults (relied on by the
nil-configuration path of `NewSyncProducer`, which only adds
`Producer.Return.Successes = true` before the verification) the default
configuration has error returns enabled and success returns disabled. -/
def NewConfig : Config :=
  { Producer := { Return := { Successes := false, Errors := true } } }

/-- Handle to a constructed synchronous producer: its configuration and
the number of router workers it runs (`sp.wg.Add(2)` plus the two
`withRecover` goroutines in `newSyncProducerFromAsyncProducer`). -/
structure SyncProducerHandle where
  config : Config
  workersStarted : Nat
deriving DecidableEq, Repr

/-- Result of `NewSyncProducer`, with an explicit count of the router
workers the call started. -/
structure ConstructionResult where
  producer : Option SyncProducerHandle
  err : Option ConfigurationError
  workersStarted : Nat
deriving DecidableEq, Repr

/-- `NewSyncProducer`: substitute the default configuration (with success
returns enabled) when called with a nil configuration, validate the
configuration precondition, and only then create the engine and start the
two routers.  The engine constructor (`NewAsyncProducer`) is the external
collaborator and is modelled as succeeding; broker addresses feed only the
engine and are omitted. -/
def NewSyncProducer (config : Option Config) : ConstructionResult :=
  let cfg := match config with
    | none => { NewConfig with Producer.Return.Successes := true }
    | some c => c
  match verifyProducerConfig cfg with
  | some e => { producer := none, err := some e, workersStarted := 0 }
  | none =>
    { producer := some { config := cfg, workersStarted := 2 }, err := none,
      workersStarted := 2 }

/-- Example configuration with error returns disabled (the spec's
scenario for a failing construction). -/
def cfgNoErrors : Config :=
  { Producer := { Return := { Successes := true, Errors := false } } }

/-- Claim C6: if the configuration does not enable both success and error
returns, construction fails immediately with a configuration error, no
router workers are started and no producer is returned; conversely a
successful construction implies both flags were enabled (so configuration
errors cannot arise afterwards). -/
theorem construction_requires_both_returns (cfg : Config)
    (h : cfg.Producer.Return.Errors = false ∨
      cfg.Producer.Return.Successes = false) :
    ((NewSyncProducer (some cfg)).err.isSome ∧
     (NewSyncProducer (some cfg)).producer = none ∧
     (NewSyncProducer (some cfg)).workersStarted = 0) ∧
    ∀ handle, (NewSyncProducer (some cfg)).producer = some handle →
      cfg.Producer.Return.Errors = true ∧
        cfg.Producer.Return.Successes = true := by
  cases hE : cfg.Producer.Return.Errors <;>
    cases hS : cfg.Producer.Return.Successes <;>
    simp_all [NewSyncProducer, verifyProducerConfig]

/-- Witness for C6: with error returns disabled, construction fails with
a configuration error and starts no workers. -/
theorem construction_requires_both_returns_witness :
    (cfgNoErrors.Producer.Return.Errors = false ∨
      cfgNoErrors.Producer.Return.Successes = false) ∧
    (((NewSyncProducer (some cfgNoErrors)).err.isSome ∧
      (NewSyncProducer (some cfgNoErrors)).producer = none ∧
      (NewSyncProducer (some cfgNoErrors)).workersStarted = 0) ∧
     ∀ handle, (NewSyncProducer (some cfgNoErrors)).producer = some handle →
       cfgNoErrors.Producer.Return.Errors = true ∧
         cfgNoErrors.Producer.Return.Successes = true) :=
  ⟨Or.inl rfl, construction_requires_both_returns cfgNoErrors (Or.inl rfl)⟩

/-- Claim C10: a nil configuration does not fail the configuration check:
the default configuration with success returns enabled passes
verification, and construction proceeds to create the engine (no
configuration error, both workers started). -/
theorem nil_config_construction_succeeds :
    verifyProducerConfig { NewConfig with Producer.Return.Successes := true }
        = none ∧
    (NewSyncProducer none).err = none ∧
    (NewSyncProducer none).producer =
      some { config := { NewConfig with Producer.Return.Successes := true },
             workersStarted := 2 } ∧
    (NewSyncProducer none).workersStarted = 2 := by
  refine ⟨rfl, rfl, rfl, rfl⟩

/-- Lifecycle state of a constructed producer: whether the engine still
accepts intake, the results still pending on the engine's two output
streams, whether the engine has closed those streams, whether each router
worker has returned, and the completion counter `sp.wg`. -/
structure LifecycleState where
  intakeOpen : Bool
  pendingSuccesses : List ProducerMessage
  pendingErrors : List ProducerError
  streamsClosed : Bool
  successRouterReturned : Bool
  errorRouterReturned : Bool
  wg : Nat
deriving DecidableEq, Repr

/-- `AsyncClose` on the engine: stop accepting new intake and flush and
close the output streams (the routers drain what remains). -/
def AsyncClose (st : LifecycleState) : LifecycleState :=
  { st with intakeOpen := false, streamsClosed := true }

/-- `handleSuccesses` running to completion: once the success stream is
closed the router drains the remaining items, returns, and signals the
completion counter (`defer sp.wg.Done()`). -/
def runSuccessRouter (st : LifecycleState) : LifecycleState :=
  if st.streamsClosed && !st.successRouterReturned then
    { st with
      pendingSuccesses := []
      successRouterReturned := true
      wg := st.wg - 1 }
  else st

/-- `handleErrors` running to completion, symmetric to the success
router. -/
def runErrorRouter (st : LifecycleState) : LifecycleState :=
  if st.streamsClosed && !st.errorRouterReturned then
    { st with
      pendingErrors := []
      errorRouterReturned := true
      wg := st.wg - 1 }
  else st

/-- `syncProducer.Close`: ask the engine to shut down (`AsyncClose`), then
`sp.wg.Wait()` — return only once both routers have observed stream
closure and returned (the counter reached zero); the returned error is the
literal nil of the source.  `none` overall would mean the wait never
completes. -/
def Close (st : LifecycleState) : Option (Option KError × LifecycleState) :=
  let st2 := runErrorRouter (runSuccessRouter (AsyncClose st))
  if st2.wg = 0 then some (none, st2) else none

/-- Claim C7: from the running state (two live routers), `Close` signals
the engine to stop intake and close its streams, returns only after both
routers have returned (completion counter zero), and surfaces no
engine-side shutdown error: its returned error is nil. -/
theorem Close_joins_routers_and_returns_nil (st : LifecycleState)
    (hwg : st.wg = 2) (hs : st.successRouterReturned = false)
    (he : st.errorRouterReturned = false) :
    Close st = some (none,
      { intakeOpen := false, pendingSuccesses := [], pendingErrors := [],
        streamsClosed := true, successRouterReturned := true,
        errorRouterReturned := true, wg := 0 }) := by
  simp [Close, AsyncClose, runSuccessRouter, runErrorRouter, hs, he, hwg]

/-- Witness for C7 at a concrete running state with one pending result on
each stream. -/
theorem Close_joins_routers_and_returns_nil_witness :
    (2 : Nat) = 2 ∧ false = false ∧
      Close { intakeOpen := true, pendingSuccesses := [msgA],
              pendingErrors := [⟨msgB, ⟨7⟩⟩], streamsClosed := false,
              successRouterReturned := false, errorRouterReturned := false,
              wg := 2 } =
        some (none,
          { intakeOpen := false, pendingSuccesses := [], pendingErrors := [],
            streamsClosed := true, successRouterReturned := true,
            errorRouterReturned := true, wg := 0 }) :=
  ⟨rfl, rfl, Close_joins_routers_and_returns_nil _ rfl rfl rfl⟩

/-- View of one `SendMessages` call against the routers' real-time
delivery order: the capacity-1 buffer of each batch member's slot (indexed
by batch position), the position the caller is about to await (the loop
`for i := range indices` reads positions in submission order), and the
results consumed so far in consumption order. -/
structure BatchAwait where
  buffers : Nat → Option SlotVal
  nextAwait : Nat
  collected : List (Nat × SlotVal)

/-- Greedy in-order consumption: the caller is parked on position
`nextAwait`; whenever that slot's buffer holds a value the caller consumes
it and advances.  `fuel` bounds the recursion; the batch size suffices. -/
def drainReady (n : Nat) : Nat → BatchAwait → BatchAwait
  | 0, st => st
  | fuel + 1, st =>
    if st.nextAwait < n then
      match st.buffers st.nextAwait with
      | some v =>
        drainReady n fuel
          { buffers := Function.update st.buffers st.nextAwait none
            nextAwait := st.nextAwait + 1
            collected := st.collected ++ [(st.nextAwait, v)] }
      | none => st
    else st

/-- The routers' deliveries in engine-completion order: completing batch
member `i` deposits `v i` into member `i`'s capacity-1 slot, possible only
while that buffer is empty (`none` models a blocked router); between
deliveries the caller consumes every ready slot in submission order. -/
def deliverAll (v : Nat → SlotVal) (n : Nat) :
    List Nat → BatchAwait → Option BatchAwait
  | [], st => some st
  | i :: rest, st =>
    match st.buffers i with
    | some _ => none
    | none =>
      deliverAll v n rest
        (drainReady n n { st with buffers := Function.update st.buffers i (some (v i)) })

/-- State at the start of the draining loop: all buffers empty, awaiting
position zero, nothing consumed. -/
def initBatchAwait : BatchAwait := ⟨fun _ => none, 0, []⟩

/-- Invariant of the draining loop against the set `P` of positions the
engine has completed so far, minus the consumption-ordering clause. -/
def AwaitPre (v : Nat → SlotVal) (n : Nat) (P : List Nat) (st : BatchAwait) :
    Prop :=
  st.nextAwait ≤ n ∧
  (∀ j, j < st.nextAwait → j ∈ P) ∧
  (∀ j, j ∈ P → st.nextAwait ≤ j → j < n → st.buffers j = some (v j)) ∧
  (∀ j, ¬(j ∈ P ∧ st.nextAwait ≤ j ∧ j < n) → st.buffers j = none) ∧
  st.collected = (List.range st.nextAwait).map fun i => (i, v i)

/-- The full invariant: additionally, after greedy consumption the awaited
position is one the engine has not yet completed. -/
def AwaitInv (v : Nat → SlotVal) (n : Nat) (P : List Nat) (st : BatchAwait) :
    Prop :=
  AwaitPre v n P st ∧ (st.nextAwait < n → st.nextAwait ∉ P)

lemma drainReady_inv (v : Nat → SlotVal) (n : Nat) :
    ∀ (fuel : Nat) (st : BatchAwait) (P : List Nat), AwaitPre v n P st →
      n - st.nextAwait ≤ fuel → AwaitInv v n P (drainReady n fuel st) := by
  intro fuel
  induction fuel with
  | zero =>
    intro st P hpre hfuel
    simp only [drainReady]
    exact ⟨hpre, fun hlt => absurd hlt (by omega)⟩
  | succ fuel ih =>
    intro st P hpre hfuel
    obtain ⟨h1, h2, h4a, h4b, h5⟩ := hpre
    simp only [drainReady]
    by_cases h : st.nextAwait < n
    · rw [if_pos h]
      by_cases hP : st.nextAwait ∈ P
      · have hbuf : st.buffers st.nextAwait = some (v st.nextAwait) :=
          h4a _ hP (Nat.le_refl _) h
        rw [hbuf]
        apply ih
        · refine ⟨?_, ?_, ?_, ?_, ?_⟩ <;> dsimp only
          · omega
          · intro j hj
            rcases Nat.lt_succ_iff_lt_or_eq.mp hj with hj | hj
            · exact h2 j hj
            · exact hj ▸ hP
          · intro j hjP hjle hjn
            rw [Function.update_noteq (by omega : j ≠ st.nextAwait)]
            exact h4a j hjP (by omega) hjn
          · intro j hj
            by_cases hji : j = st.nextAwait
            · subst hji
              exact Function.update_same _ _ _
            · rw [Function.update_noteq hji]
              exact h4b j fun hc => hj ⟨hc.1, by omega, hc.2.2⟩
          · simp [List.range_succ, h5]
        · dsimp only
          omega
      · have hbuf : st.buffers st.nextAwait = none :=
          h4b _ fun hc => hP hc.1
        rw [hbuf]
        exact ⟨⟨h1, h2, h4a, h4b, h5⟩, fun _ => hP⟩
    · rw [if_neg h]
      exact ⟨⟨h1, h2, h4a, h4b, h5⟩, fun hlt => absurd hlt h⟩

lemma deliverAll_inv (v : Nat → SlotVal) (n : Nat) :
    ∀ (order : List Nat) (P : List Nat) (st : BatchAwait),
      AwaitInv v n P st → order.Nodup →
      (∀ i ∈ order, i < n ∧ i ∉ P) →
      ∃ st2 P2, deliverAll v n order st = some st2 ∧ AwaitInv v n P2 st2 ∧
        (∀ j, j ∈ P2 ↔ (j ∈ order ∨ j ∈ P)) := by
  intro order
  induction order with
  | nil =>
    intro P st hinv _ _
    exact ⟨st, P, rfl, hinv, by simp⟩
  | cons i rest ih =>
    intro P st hinv hnd hcond
    obtain ⟨⟨h1, h2, h4a, h4b, h5⟩, h3⟩ := hinv
    obtain ⟨hiLt, hiP⟩ := hcond i (.head _)
    have hiNa : st.nextAwait ≤ i := by
      by_contra hc
      exact hiP (h2 i (by omega))
    have hbi : st.buffers i = none := h4b i fun hc => hiP hc.1
    have hpre : AwaitPre v n (i :: P)
        { st with buffers := Function.update st.buffers i (some (v i)) } := by
      refine ⟨h1, fun j hj => .tail _ (h2 j hj), ?_, ?_, h5⟩ <;> dsimp only
      · intro j hjP hjle hjn
        by_cases hji : j = i
        · subst hji
          exact Function.update_same _ _ _
        · rw [Function.update_noteq hji]
          rcases List.mem_cons.mp hjP with hj | hj
          · exact absurd hj hji
          · exact h4a j hj hjle hjn
      · intro j hj
        by_cases hji : j = i
        · subst hji
          exact absurd ⟨.head _, hiNa, hiLt⟩ hj
        · rw [Function.update_noteq hji]
          exact h4b j fun hc => hj ⟨.tail _ hc.1, hc.2.1, hc.2.2⟩
    have hdrain := drainReady_inv v n n _ (i :: P) hpre (Nat.sub_le n _)
    obtain ⟨hndi, hndr⟩ := List.nodup_cons.mp hnd
    have hrest : ∀ i' ∈ rest, i' < n ∧ i' ∉ (i :: P) := by
      intro i' hi'
      obtain ⟨hlt', hP'⟩ := hcond i' (.tail _ hi')
      refine ⟨hlt', fun hc => ?_⟩
      rcases List.mem_cons.mp hc with hc | hc
      · exact hndi (hc ▸ hi')
      · exact hP' hc
    obtain ⟨st2, P2, heq, hinv2, hmem2⟩ :=
      ih (i :: P) (drainReady n n
          { st with buffers := Function.update st.buffers i (some (v i)) })
        hdrain hndr hrest
    refine ⟨st2, P2, ?_, hinv2, ?_⟩
    · simp only [deliverAll, hbi]
      exact heq
    · intro j
      rw [hmem2 j]
      constructor
      · rintro (hj | hj)
        · exact Or.inl (.tail _ hj)
        · rcases List.mem_cons.mp hj with hj | hj
          · exact Or.inl (hj ▸ .head _)
          · exact Or.inr hj
      · rintro (hj | hj)
        · rcases List.mem_cons.mp hj with hj | hj
          · exact Or.inr (hj ▸ .head _)
          · exact Or.inl hj
        · exact Or.inr (.tail _ hj)

/-- Claim C4: within one `SendMessages` call, results are awaited strictly
in submission order: whatever real-time order the engine completes the
batch in (`order`, any permutation of the positions), no router delivery
ever finds a full buffer (the capacity-1 slot absorbs out-of-order
results), the caller consumes every result, and the consumption sequence
is exactly the submission sequence `0, 1, …, n-1`, each paired with its
own routed result. -/
theorem awaited_in_submission_order (v : Nat → SlotVal) (n : Nat)
    (order : List Nat) (hnd : order.Nodup)
    (hlt : ∀ i ∈ order, i < n) (hcov : ∀ i < n, i ∈ order) :
    (deliverAll v n order initBatchAwait).map
        (fun st => (st.collected, st.nextAwait)) =
      some ((List.range n).map (fun i => (i, v i)), n) := by
  have hinit : AwaitInv v n [] initBatchAwait := by
    refine ⟨⟨Nat.zero_le n, ?_, ?_, ?_, rfl⟩, ?_⟩
    · intro j hj
      exact absurd hj (Nat.not_lt_zero j)
    · intro j hj
      exact absurd hj (List.not_mem_nil j)
    · intro j hj
      rfl
    · intro hlt0 hc
      exact List.not_mem_nil _ hc
  obtain ⟨st2, P2, heq, ⟨⟨h1, h2, h4a, h4b, h5⟩, h3⟩, hmem⟩ :=
    deliverAll_inv v n order [] initBatchAwait hinit hnd
      (fun i hi => ⟨hlt i hi, List.not_mem_nil i⟩)
  have hna : st2.nextAwait = n := by
    by_contra hc
    have hlt2 : st2.nextAwait < n := by omega
    exact h3 hlt2 ((hmem _).mpr (Or.inl (hcov _ hlt2)))
  rw [heq]
  simp [h5, hna]

/-- Example routed results for a three-member batch: only member 1
fails. -/
def vEx : Nat → SlotVal := fun i => if i = 1 then some ⟨msgB, ⟨9⟩⟩ else none

/-- Witness for C4 at a concrete batch of three whose engine-side
completion order `[2, 0, 1]` differs from submission order. -/
theorem awaited_in_submission_order_witness :
    ([2, 0, 1] : List Nat).Nodup ∧ (∀ i ∈ ([2, 0, 1] : List Nat), i < 3) ∧
      (∀ i < 3, i ∈ ([2, 0, 1] : List Nat)) ∧
      (deliverAll vEx 3 [2, 0, 1] initBatchAwait).map
          (fun st => (st.collected, st.nextAwait)) =
        some ((List.range 3).map (fun i => (i, vEx i)), 3) :=
  ⟨by decide, by decide, by decide,
    awaited_in_submission_order vEx 3 [2, 0, 1] (by decide) (by decide)
      (by decide)⟩

/-- Router delivery across `C` concurrent `SendMessage` callers.  The
routers (`handleSuccesses`/`handleErrors`) deliver each engine-reported
result to the slot attached to the reported message itself; with distinct
messages each caller's slot is its own, identified here by the caller's
index.  `order` is the real-time order in which the engine reports the
outcomes, `v i` is caller `i`'s outcome; a deposit requires the capacity-1
buffer to be empty (`none` models a blocked router, impossible since each
message is reported exactly once). -/
def routeDeliveries (v : Nat → SlotVal) :
    List Nat → (Nat → Option SlotVal) → Option (Nat → Option SlotVal)
  | [], slots => some slots
  | i :: rest, slots =>
    match slots i with
    | some _ => none
    | none => routeDeliveries v rest (Function.update slots i (some (v i)))

lemma routeDeliveries_spec (v : Nat → SlotVal) :
    ∀ (order : List Nat) (slots : Nat → Option SlotVal), order.Nodup →
      (∀ j ∈ order, slots j = none) →
      ∃ f, routeDeliveries v order slots = some f ∧
        (∀ j ∈ order, f j = some (v j)) ∧
        (∀ j, j ∉ order → f j = slots j) := by
  intro order
  induction order with
  | nil =>
    intro slots _ _
    exact ⟨slots, rfl, by simp, fun j _ => rfl⟩
  | cons i rest ih =>
    intro slots hnd hempty
    obtain ⟨hndi, hndr⟩ := List.nodup_cons.mp hnd
    have hempty' : ∀ j ∈ rest, Function.update slots i (some (v i)) j = none := by
      intro j hj
      rw [Function.update_noteq fun hh => hndi (by rw [hh] at hj; exact hj)]
      exact hempty j (.tail _ hj)
    obtain ⟨f, heq, hin, hout⟩ :=
      ih (Function.update slots i (some (v i))) hndr hempty'
    refine ⟨f, ?_, ?_, ?_⟩
    · simp only [routeDeliveries, hempty i (.head _)]
      exact heq
    · intro j hj
      rcases List.mem_cons.mp hj with hj | hj
      · subst hj
        rw [hout j hndi, Function.update_same]
      · exact hin j hj
    · intro j hj
      rw [hout j fun hh => hj (.tail _ hh),
        Function.update_noteq fun hh => hj (by rw [hh]; exact .head _)]

/-- Claim C8: when `C ≥ 2` callers concurrently invoke `SendMessage` on
distinct messages, whatever real-time order the engine reports the
outcomes in, after all deliveries every caller's slot holds exactly the
outcome of that caller's own message — no result is lost (every slot
filled), none duplicated (no deposit ever finds a full buffer), and none
delivered to another caller's slot. -/
theorem concurrent_callers_receive_own_result (C : Nat) (v : Nat → SlotVal)
    (order : List Nat) (hC : 2 ≤ C) (hnd : order.Nodup)
    (hlt : ∀ i ∈ order, i < C) (hcov : ∀ i < C, i ∈ order) :
    (routeDeliveries v order (fun _ => none)).map
        (fun f => (List.range C).map f) =
      some ((List.range C).map fun i => some (v i)) := by
  obtain ⟨f, heq, hin, -⟩ :=
    routeDeliveries_spec v order (fun _ => none) hnd (fun j _ => rfl)
  rw [heq]
  show some ((List.range C).map f) = some ((List.range C).map fun i => some (v i))
  exact congrArg some
    (List.map_congr_left fun i hi => hin i (hcov i (List.mem_range.mp hi)))

/-- Witness for C8: two concurrent callers whose results arrive in
reversed order each end with their own outcome in their own slot. -/
theorem concurrent_callers_receive_own_result_witness :
    (2 ≤ 2 ∧ ([1, 0] : List Nat).Nodup ∧ (∀ i ∈ ([1, 0] : List Nat), i < 2) ∧
      (∀ i < 2, i ∈ ([1, 0] : List Nat))) ∧
      (routeDeliveries vEx [1, 0] (fun _ => none)).map
          (fun f => (List.range 2).map f) =
        some ((List.range 2).map fun i => some (vEx i)) :=
  ⟨⟨by decide, by decide, by decide, by decide⟩,
    concurrent_callers_receive_own_result 2 vEx [1, 0] (by decide) (by decide)
      (by decide) (by decide)⟩

end Sarama
